import Mathlib

/-!
Verification of the OctaneCores matchmaking core (src/main.py): rating
engine, queue management, match formation and match-result processing,
embedded shallowly as pure Lean functions over explicit state.
-/

namespace Octane

/-- The ordered rank tier table from the source (`RANKS`):
(minimum MMR threshold, tier name), 22 entries. -/
def RANKS : List (Int × String) :=
  [(0, "Bronze I"), (200, "Bronze II"), (300, "Bronze III"),
   (400, "Silver I"), (500, "Silver II"), (600, "Silver III"),
   (700, "Gold I"), (800, "Gold II"), (900, "Gold III"),
   (1000, "Platinum I"), (1100, "Platinum II"), (1200, "Platinum III"),
   (1300, "Diamond I"), (1400, "Diamond II"), (1500, "Diamond III"),
   (1600, "Champion I"), (1700, "Champion II"), (1800, "Champion III"),
   (1900, "Grand Champion I"), (2000, "Grand Champion II"), (2100, "Grand Champion III"),
   (2200, "Supersonic Legend")]

/-- The scanning loop of `get_rank`: walk the given threshold table in order
and return the name of the first entry whose threshold is at most `mmr`;
fall back to the literal `"Bronze I"` when no entry fires (the source's
final `return "Bronze I"`). -/
def rankScan : List (Int × String) → Int → String
  | [], _ => "Bronze I"
  | (t, r) :: rest, mmr => if t ≤ mmr then r else rankScan rest mmr

/-- `get_rank` from the source: scans `reversed(RANKS)`, i.e. from the
highest threshold down, returning the first tier whose threshold the
rating meets. -/
def get_rank (mmr : Int) : String := rankScan RANKS.reverse mmr

/-- Index at which `rankScan` stops on the given table (table length when it
falls through to the fallback). -/
def scanIdx : List (Int × String) → Int → Nat
  | [], _ => 0
  | (t, _) :: rest, mmr => if t ≤ mmr then 0 else scanIdx rest mmr + 1

/-- Position of a tier name in the ordered tier table (`RANKS`); the larger
the position, the higher the tier. -/
def rankValue (name : String) : Nat := (RANKS.map Prod.snd).indexOf name

/- ### Data model (the source's dataclasses and global dictionaries) -/

/-- The per-player counters stored in `Player.stats`
(the dict `{"wins": _, "losses": _, "goals": _, "assists": _, "saves": _}`). -/
structure Stats where
  wins : Int
  losses : Int
  goals : Int
  assists : Int
  saves : Int
deriving DecidableEq, Repr

/-- One entry of `Player.match_history` (the dict appended by
`process_result`). The timestamp is the `datetime.now().isoformat()` string,
passed in as an explicit argument to the embedded operations. -/
structure HistEntry where
  hmatch_id : String
  hresult : String
  hmode : String
  hmap : String
  hteam_size : String
  hregion : String
  htimestamp : String
deriving DecidableEq, Repr

/-- The `Player` dataclass. -/
structure Player where
  discord_id : String
  rl_username : String
  platform : String
  region : String
  mmr : Int
  rank : String
  stats : Stats
  match_history : List HistEntry
deriving DecidableEq, Repr

/-- The `Match` dataclass. -/
structure GameMatch where
  match_id : String
  mode : String
  map_name : String
  region : String
  team_size : String
  players : List String
  status : String
  created_at : String
  room_name : String
  room_password : String
deriving DecidableEq, Repr

/-- The global mutable state the claims touch: the `players` dictionary and
the `matches` dictionary (the latter renamed `matchesMap` because `matches`
is a Lean keyword), both keyed by string ids (a key absent from the
dictionary maps to `none`). -/
structure SysState where
  players : String → Option Player
  matchesMap : String → Option GameMatch

/- ### RatingEngine: update_player_mmr -/

/-- The source computes `10 ** x` on Python floats. At integer exponents —
the only exponents any concrete evaluation below performs — the float
computation is exact and equals this rational value. At non-integer
exponents the mathematical value is irrational, so no rational embedding of
it exists; this function returns 0 there, and no theorem in this file
depends on the value of that branch. -/
def tenPow (q : ℚ) : ℚ := if q.den = 1 then (10 : ℚ) ^ q.num else 0

/-- Python's `int()` applied to a ratio: truncation toward zero
(Lean's `Int` division is T-division, which truncates toward zero). -/
def truncQ (q : ℚ) : Int := q.num / (q.den : Int)

/-- Python's binary `max`, written out so it evaluates by kernel
reduction. -/
def pymax (a b : Int) : Int := if a ≤ b then b else a

/-- The body of `update_player_mmr` for a resolved player: the Elo update
with K = 32 against the given opponent average rating, the new rating
clamped at 0, the rank recomputed from the table, and the win or loss
counter bumped. -/
def eloUpdatedPlayer (p : Player) (won : Bool) (opponent_mmr : ℚ) : Player :=
  let expected : ℚ := 1 / (1 + tenPow ((opponent_mmr - (p.mmr : ℚ)) / 400))
  let actual : ℚ := if won then 1 else 0
  let mmr_change : Int := truncQ (32 * (actual - expected))
  let newMmr : Int := pymax 0 (p.mmr + mmr_change)
  let newStats : Stats :=
    if won then { p.stats with wins := p.stats.wins + 1 }
    else { p.stats with losses := p.stats.losses + 1 }
  { p with mmr := newMmr, rank := get_rank newMmr, stats := newStats }

/-- `update_player_mmr` from the source: no-op when the player id is not
registered; otherwise stores the Elo-updated record under the player's
id. -/
def update_player_mmr (ps : String → Option Player) (player_id : String)
    (won : Bool) (opponent_mmr : ℚ) : String → Option Player :=
  match ps player_id with
  | none => ps
  | some p =>
    fun k => if k = player_id then some (eloUpdatedPlayer p won opponent_mmr) else ps k

/- ### PlayerRegistry: profile registration -/

/-- Player creation as performed by `RegionSelectView.region_select` (and
identically by `PlayerLinkModal.on_submit`): a fresh profile with MMR 1000,
the hard-coded rank string `"Gold I"`, zeroed stats and empty history,
stored under the user id (overwriting any existing entry). -/
def registerPlayer (ps : String → Option Player) (user_id rl_username platform region : String) :
    String → Option Player :=
  let p : Player :=
    { discord_id := user_id, rl_username := rl_username, platform := platform,
      region := region, mmr := 1000, rank := "Gold I",
      stats := { wins := 0, losses := 0, goals := 0, assists := 0, saves := 0 },
      match_history := [] }
  fun k => if k = user_id then some p else ps k

/- ### MatchLifecycle: process_result -/

/-- `int(team_size[0])` from the source: the leading character of the
team-size label parsed as a single decimal digit; `none` models the Python
exception on an empty label or a non-digit leading character. -/
def teamSizeNum (s : String) : Option Nat :=
  match s.data with
  | [] => none
  | c :: _ => if c.isDigit then some (c.toNat - 48) else none

/-- `sum(players[p].mmr for p in team if p in players)`: the sum of the
ratings of the team members found in the registry. -/
def resolvableSum (ps : String → Option Player) (team : List String) : ℚ :=
  team.foldl (fun acc pid =>
    match ps pid with
    | some p => acc + (p.mmr : ℚ)
    | none => acc) 0

/-- A team's average rating as `process_result` computes it:
`sum(players[p].mmr for p in team if p in players) / len(team)` — the sum
skips unregistered participants but the divisor is the full team length. -/
def teamAvg (ps : String → Option Player) (team : List String) : ℚ :=
  resolvableSum ps team / (team.length : ℚ)

/-- Modelled from the spec's words, for comparison with `teamAvg` only:
"each team's average current rating (ignoring any participant no longer
found in PlayerRegistry)" — the sum and the divisor both range over the
resolvable participants. -/
def specResolvableAvg (ps : String → Option Player) (team : List String) : ℚ :=
  resolvableSum ps team / ((team.filter (fun pid => (ps pid).isSome)).length : ℚ)

/-- The history record `process_result` appends for one participant. -/
def histEntryFor (m : GameMatch) (won : Bool) (now : String) : HistEntry :=
  { hmatch_id := m.match_id, hresult := if won then "win" else "loss",
    hmode := m.mode, hmap := m.map_name, hteam_size := m.team_size,
    hregion := m.region, htimestamp := now }

/-- `players[player_id].match_history.append(...)`: appends the entry to the
given player's history (no-op on an unregistered id, matching the guard the
source places around the whole per-player block). -/
def appendHistory (ps : String → Option Player) (player_id : String) (e : HistEntry) :
    String → Option Player :=
  match ps player_id with
  | none => ps
  | some p =>
    fun k => if k = player_id then
      some { p with match_history := p.match_history ++ [e] } else ps k

/-- The per-participant body of the two loops in `process_result`: if the
id is registered, apply `update_player_mmr` against the opposing team's
average and append the history entry; otherwise skip. -/
def reportStep (m : GameMatch) (won : Bool) (oppAvg : ℚ) (now : String)
    (ps : String → Option Player) (player_id : String) : String → Option Player :=
  match ps player_id with
  | none => ps
  | some _ =>
    appendHistory (update_player_mmr ps player_id won oppAvg) player_id
      (histEntryFor m won now)

/-- `MatchResultView.process_result` from the source, processing a report of
`winner` (`"Orange"` or `"Blue"`) for match `m` at wall-clock string `now`:
splits the participant list at the parsed team size (first half Orange,
second half Blue), computes both team averages over the pre-update ratings,
updates every registered Orange participant against the Blue average, then
every registered Blue participant against the Orange average, and finally
marks the stored match record Completed. `none` collapses the Python error
paths: an unparsable team-size label, an empty team (`ZeroDivisionError` in
the average — raised before any player is mutated), or a match id absent
from the matches dictionary (`KeyError`). The source performs no check of
the match's current status. -/
def process_result (st : SysState) (m : GameMatch) (winner : String) (now : String) :
    Option SysState :=
  match teamSizeNum m.team_size with
  | none => none
  | some ts =>
    let orange_team := m.players.take ts
    let blue_team := m.players.drop ts
    if orange_team.length = 0 then none
    else if blue_team.length = 0 then none
    else
      let orange_avg := teamAvg st.players orange_team
      let blue_avg := teamAvg st.players blue_team
      let ps1 := orange_team.foldl
        (fun ps pid => reportStep m (winner = "Orange") blue_avg now ps pid) st.players
      let ps2 := blue_team.foldl
        (fun ps pid => reportStep m (winner = "Blue") orange_avg now ps pid) ps1
      match st.matchesMap m.match_id with
      | none => none
      | some mm =>
        some { players := ps2,
               matchesMap := fun k => if k = m.match_id then
                 some { mm with status := "Completed" } else st.matchesMap k }

/- ### QueueManager: the queues dictionary and its operations -/

/-- A queue key: (region, mode, team size), the three nested dictionary
levels of the source's `queues` structure. -/
abbrev QKey := String × String × String

/-- The queue state: every key owns a waiting list (the `defaultdict`
yields an empty list for untouched keys). -/
abbrev QState := QKey → List String

/-- The removal loop shared by `join_queue` and `leave_queue`: for every
queue, remove the first occurrence of the player id if present
(`if user_id in ...: ....remove(user_id)`). -/
def removeFromAll (st : QState) (pid : String) : QState :=
  fun k => (st k).erase pid

/-- `join_queue`: first removes the player from every existing queue, then
appends them to the tail of the target queue. -/
def enqueue (st : QState) (pid : String) (key : QKey) : QState :=
  let cleaned := removeFromAll st pid
  fun k => if k = key then cleaned k ++ [pid] else cleaned k

/-- `leave_queue`: removes the player from every queue. -/
def leave (st : QState) (pid : String) : QState := removeFromAll st pid

/-- One queue operation issued by a user. -/
inductive QOp where
  | enq (pid : String) (key : QKey)
  | lv (pid : String)

/-- Apply one queue operation. -/
def applyQOp (st : QState) : QOp → QState
  | .enq pid key => enqueue st pid key
  | .lv pid => leave st pid

/-- Run a sequence of queue operations from the empty initial state. -/
def runQOps (ops : List QOp) : QState :=
  ops.foldl applyQOp (fun _ => [])

/- ### MatchFormationScheduler: queue_checker -/

/-- The per-queue body of one `queue_checker` tick: if the waiting list
holds at least `needed` players, copy the first `needed`
(`player_list[:needed]`) as the selected group and remove each of them from
the live list (`.remove(p)`, first occurrence); otherwise leave the queue
untouched. Returns (selected group if any, remaining queue). -/
def drainOnce (l : List String) (needed : Nat) : Option (List String) × List String :=
  if needed ≤ l.length then
    let selected := l.take needed
    (some selected, selected.foldl (fun acc p => acc.erase p) l)
  else (none, l)

/-- One `queue_checker` visit to a single queue, including the required
count computation `needed = int(team_size[0]) * 2`; `none` models the
Python exception on an unparsable team-size label. -/
def visitQueue (team_size : String) (l : List String) :
    Option (Option (List String) × List String) :=
  (teamSizeNum team_size).map (fun k => drainOnce l (2 * k))

/- ### Match creation (queue_checker body, id allocation) -/

/-- Little-endian base-10 digits of `n`, with an explicit fuel argument so
the recursion is structural (and hence kernel-evaluable). With `n` itself
as fuel this computes the digits of any positive `n`. -/
def digitsRevAux : Nat → Nat → List Nat
  | 0, _ => []
  | _ + 1, 0 => []
  | fuel + 1, n + 1 => ((n + 1) % 10) :: digitsRevAux fuel ((n + 1) / 10)

/-- Decimal representation of a natural number, modelling Python's
string formatting of the random draw in `f"match_{...}"`. -/
def natRepr (n : Nat) : String :=
  if n = 0 then "0"
  else ⟨(digitsRevAux n n).reverse.map (fun d => Char.ofNat (48 + d))⟩

/-- The match id allocated by `queue_checker`:
`f"match_{random.randint(10000, 99999)}"` with the random draw passed in
explicitly. -/
def mkMatchId (draw : Nat) : String := "match_" ++ natRepr draw

/-- Match creation as performed by `queue_checker` once a group has been
drained: builds the `Match` record with status `"Active"` and stores it in
the matches dictionary under its id, overwriting any entry already stored
under that id (`matches[match_id] = match`). The random draw, the chosen
map and the room name/password tokens are passed in explicitly. -/
def createMatch (ms : String → Option GameMatch) (region mode team_size : String)
    (selected : List String) (draw : Nat) (map_name room_name room_password now : String) :
    String → Option GameMatch :=
  let mid := mkMatchId draw
  let m : GameMatch :=
    { match_id := mid, mode := mode, map_name := map_name, region := region,
      team_size := team_size, players := selected, status := "Active",
      created_at := now, room_name := room_name, room_password := room_password }
  fun k => if k = mid then some m else ms k

/- ### Concrete scenario: players A and B at MMR 1000, one 1v1 match -/

/-- The empty player registry. -/
def emptyPlayers : String → Option Player := fun _ => none

/-- The empty matches dictionary. -/
def emptyMatches : String → Option GameMatch := fun _ => none

/-- Registry holding exactly players "A" and "B", both freshly registered
(MMR 1000). -/
def psAB : String → Option Player :=
  registerPlayer (registerPlayer emptyPlayers "A" "alice" "Steam" "NA-East")
    "B" "bob" "Epic" "NA-East"

/-- The 1v1 match between "A" (Orange, first half) and "B" (Blue, second
half), formed under id draw 12345. -/
def matchAB : GameMatch :=
  { match_id := mkMatchId 12345, mode := "Soccar", map_name := "DFH Stadium",
    region := "NA-East", team_size := "1v1", players := ["A", "B"],
    status := "Active", created_at := "t0", room_name := "OS1234",
    room_password := "321" }

/-- Matches dictionary holding exactly `matchAB`, stored by `createMatch`. -/
def msAB : String → Option GameMatch :=
  createMatch emptyMatches "NA-East" "Soccar" "1v1" ["A", "B"] 12345
    "DFH Stadium" "OS1234" "321" "t0"

/-- Full system state for the reference scenario. -/
def stAB : SysState := { players := psAB, matchesMap := msAB }

/-- Registry holding only player "A", freshly registered. -/
def psA0 : String → Option Player :=
  registerPlayer emptyPlayers "A" "alice" "Steam" "EU"

/-- The record of player "A" after winning once against opponent average
1000 from the fresh baseline: rating 1016, rank recomputed from the table,
one win. -/
def pA1 : Player :=
  { discord_id := "A", rl_username := "alice", platform := "Steam",
    region := "EU", mmr := 1016, rank := "Platinum I",
    stats := { wins := 1, losses := 0, goals := 0, assists := 0, saves := 0 },
    match_history := [] }

/-- A first match stored under random draw 11111. -/
def msOne : String → Option GameMatch :=
  createMatch emptyMatches "EU" "Soccar" "1v1" ["A", "B"] 11111
    "DFH Stadium" "OS1111" "111" "t0"

/-- A second, different match created with the same random draw 11111. -/
def msTwo : String → Option GameMatch :=
  createMatch msOne "EU" "Soccar" "1v1" ["C", "D"] 11111
    "Mannfield" "OS2222" "222" "t1"

/-- Registry with players "A", "C" and "D" registered (fresh baseline);
"X" is deliberately left unregistered. -/
def psACD : String → Option Player :=
  registerPlayer (registerPlayer psA0 "C" "carol" "Epic" "EU")
    "D" "dave" "Xbox" "EU"

/-- The fields of a player record that `process_result` never writes:
identity, profile data and the goals/assists/saves counters. `frameEq p q`
says `q` agrees with `p` on all of them. -/
def frameEq (p q : Player) : Prop :=
  q.discord_id = p.discord_id ∧ q.rl_username = p.rl_username ∧
  q.platform = p.platform ∧ q.region = p.region ∧
  q.stats.goals = p.stats.goals ∧ q.stats.assists = p.stats.assists ∧
  q.stats.saves = p.stats.saves

/-- Value of a little-endian digit list (left inverse of
`digitsRevAux`, used to prove match ids from distinct draws distinct). -/
def valDigits (l : List Nat) : Nat := l.foldr (fun d acc => d + 10 * acc) 0

/-- The state after reporting a result, as a total function: the processed
state on success, the unchanged input state on the (error) `none` paths. -/
def processedState (st : SysState) (m : GameMatch) (winner now : String) : SysState :=
  (process_result st m winner now).getD st

/-- The projection of a player record onto the fields `process_result`
never writes: identity/profile data and the goals/assists/saves
counters. -/
def frameProj (p : Player) : String × String × String × String × Int × Int × Int :=
  (p.discord_id, p.rl_username, p.platform, p.region,
   p.stats.goals, p.stats.assists, p.stats.saves)

/-- A 2v2 match whose Orange team contains the unregistered id "X". -/
def matchC7 : GameMatch :=
  { match_id := mkMatchId 77777, mode := "Soccar", map_name := "DFH Stadium",
    region := "EU", team_size := "2v2", players := ["A", "X", "C", "D"],
    status := "Active", created_at := "t0", room_name := "OS7777",
    room_password := "777" }

/-- Matches dictionary holding exactly `matchC7`. -/
def msC7 : String → Option GameMatch :=
  createMatch emptyMatches "EU" "Soccar" "2v2" ["A", "X", "C", "D"] 77777
    "DFH Stadium" "OS7777" "777" "t0"

/-- System state for the C7 scenario: "A", "C", "D" registered, "X" not. -/
def stC7 : SysState := { players := psACD, matchesMap := msC7 }

/-- The queue invariant: every player id occurs at most once in any single
waiting list, and in at most one queue across the whole system. -/
def QInv (st : QState) : Prop :=
  ∀ pid : String, (∀ k : QKey, ((st k).count pid) ≤ 1) ∧
    ∀ k1 k2 : QKey, pid ∈ st k1 → pid ∈ st k2 → k1 = k2

/-- Concrete operation sequence used to witness the queue invariant:
player "A" enqueues in EU Soccar 1v1 and then switches to NA-East Hoops
2v2. -/
def opsW : List QOp :=
  [QOp.enq "A" ("EU", "Soccar", "1v1"), QOp.enq "A" ("NA-East", "Hoops", "2v2")]

/- ## Theorems -/

/- ### Rank-table lemmas -/

theorem rankScan_eq_getD (L : List (Int × String)) (mmr : Int) :
    rankScan L mmr = (L.getD (scanIdx L mmr) (0, "Bronze I")).2 := by
  induction L with
  | nil => simp [rankScan, scanIdx, List.getD]
  | cons p rest ih =>
    obtain ⟨t, r⟩ := p
    by_cases h : t ≤ mmr
    · simp [rankScan, scanIdx, h, List.getD]
    · simp [rankScan, scanIdx, h, List.getD, ih]

theorem scanIdx_anti (L : List (Int × String)) {r1 r2 : Int} (h : r1 ≤ r2) :
    scanIdx L r2 ≤ scanIdx L r1 := by
  induction L with
  | nil => simp [scanIdx]
  | cons p rest ih =>
    obtain ⟨t, r⟩ := p
    by_cases h2 : t ≤ r2
    · simp [scanIdx, h2]
    · have h1 : ¬ t ≤ r1 := fun hc => h2 (hc.trans h)
      simp [scanIdx, h1, h2]
      exact ih

theorem rankValue_reverse_getD (i : Nat) :
    rankValue ((RANKS.reverse.getD i (0, "Bronze I")).2) = 21 - i := by
  by_cases h : i < 22
  · revert h
    have : ∀ j : Nat, j < 22 →
        rankValue ((RANKS.reverse.getD j (0, "Bronze I")).2) = 21 - j := by decide
    exact this i
  · push_neg at h
    have hge : RANKS.reverse.length ≤ i := by
      have hlen : RANKS.reverse.length = 22 := by decide
      omega
    rw [List.getD_eq_default _ _ hge]
    have h21 : 21 - i = 0 := by omega
    rw [h21]
    decide

theorem rankScan_neg (L : List (Int × String)) (hL : ∀ p ∈ L, 0 ≤ p.1)
    {mmr : Int} (h : mmr < 0) : rankScan L mmr = "Bronze I" := by
  induction L with
  | nil => rfl
  | cons p rest ih =>
    obtain ⟨t, r⟩ := p
    have ht : 0 ≤ t := hL (t, r) (by simp)
    have hnot : ¬ t ≤ mmr := by omega
    simp only [rankScan, if_neg hnot]
    exact ih (fun q hq => hL q (by simp [hq]))

/- ### C8: get_rank is monotone and clamps below the table -/

/-- C8: `get_rank` is monotonically non-decreasing — for ratings
`r1 ≤ r2` the tier returned for `r1` sits at or below the tier returned for
`r2` in the ordered tier table (compared by position `rankValue`) — and any
rating below all thresholds (i.e. negative, the first threshold being 0)
yields the lowest tier `"Bronze I"` rather than a failure. -/
theorem C8_get_rank_monotone_and_clamped :
    (∀ r1 r2 : Int, r1 ≤ r2 → rankValue (get_rank r1) ≤ rankValue (get_rank r2)) ∧
    (∀ r : Int, r < 0 → get_rank r = "Bronze I") := by
  constructor
  · intro r1 r2 h
    rw [get_rank, get_rank, rankScan_eq_getD, rankScan_eq_getD,
      rankValue_reverse_getD, rankValue_reverse_getD]
    exact Nat.sub_le_sub_left (scanIdx_anti _ h) 21
  · intro r h
    exact rankScan_neg _ (by decide) h

/-- Witness for C8 at ratings 100 ≤ 1500 and at the negative rating -7. -/
theorem C8_witness :
    rankValue (get_rank 100) ≤ rankValue (get_rank 1500) ∧ get_rank (-7) = "Bronze I" :=
  ⟨C8_get_rank_monotone_and_clamped.1 100 1500 (by decide),
   C8_get_rank_monotone_and_clamped.2 (-7) (by decide)⟩

/- ### C2: the reference 1v1 scenario -/

/-- C2: in the reference scenario — "A" and "B" both registered at rating
1000, matched 1v1 with "A" on team Orange (team A) and "B" on team Blue,
and Orange reported as winner — processing the result yields rating 1016
for "A", 984 for "B" (K = 32, equal ratings give expected score 1/2, delta
truncated to 16) and marks the match Completed. -/
theorem C2_reference_scenario :
    (process_result stAB matchAB "Orange" "t1").map (fun st =>
      ((st.players "A").map Player.mmr, (st.players "B").map Player.mmr,
       (st.matchesMap (mkMatchId 12345)).map GameMatch.status)) =
    some (some 1016, some 984, some "Completed") := by
  have hts : teamSizeNum "1v1" = some 1 := rfl
  simp [process_result, stAB, psAB, msAB, matchAB, hts, teamAvg, resolvableSum,
    reportStep, update_player_mmr, eloUpdatedPlayer, appendHistory, histEntryFor,
    registerPlayer, emptyPlayers, emptyMatches, createMatch, mkMatchId,
    tenPow, truncQ, pymax, get_rank, rankScan, RANKS, natRepr, digitsRevAux]
  norm_num

/- ### Queue draining: C6 and C5 -/

theorem foldl_erase_take (n : Nat) :
    ∀ l : List String, n ≤ l.length →
      (l.take n).foldl (fun acc p => acc.erase p) l = l.drop n := by
  induction n with
  | zero => intro l _; simp
  | succ m ih =>
    intro l hl
    match l with
    | [] => simp at hl
    | a :: t =>
      have hm : m ≤ t.length := by simpa using hl
      calc ((a :: t).take (m + 1)).foldl (fun acc p => acc.erase p) (a :: t)
          = (a :: t.take m).foldl (fun acc p => acc.erase p) (a :: t) := by
            simp
        _ = (t.take m).foldl (fun acc p => acc.erase p) ((a :: t).erase a) := by
            simp [List.foldl_cons]
        _ = (t.take m).foldl (fun acc p => acc.erase p) t := by
            rw [List.erase_cons_head]
        _ = t.drop m := ih t hm
        _ = (a :: t).drop (m + 1) := by simp

theorem drainOnce_saturated {l : List String} {needed : Nat} (h : needed ≤ l.length) :
    drainOnce l needed = (some (l.take needed), l.drop needed) := by
  simp only [drainOnce, if_pos h, foldl_erase_take needed l h]

/-- C6: visiting a queue whose length is at least the required count
`2 × players-per-team` removes exactly the required count of players from
the head in FIFO order — the formed group is the prefix `l.take (2*k)`, of
size exactly `2*k` — and leaves the remaining players in place in their
original order (the suffix `l.drop (2*k)`). -/
theorem C6_drain_removes_head_group (team_size : String) (k : Nat) (l : List String)
    (hk : teamSizeNum team_size = some k) (hlen : 2 * k ≤ l.length) :
    visitQueue team_size l = some (some (l.take (2 * k)), l.drop (2 * k)) ∧
      (l.take (2 * k)).length = 2 * k := by
  constructor
  · simp [visitQueue, hk, drainOnce_saturated hlen]
  · simp [List.length_take]
    omega

/-- Witness for C6: a 2v2 queue of five players yields the first four as
the group and leaves the fifth. -/
theorem C6_witness :
    visitQueue "2v2" ["a", "b", "c", "d", "e"] =
      some (some ["a", "b", "c", "d"], ["e"]) ∧
      (["a", "b", "c", "d"] : List String).length = 4 := by
  have h := C6_drain_removes_head_group "2v2" 2 ["a", "b", "c", "d", "e"]
    (by decide) (by decide)
  simpa using h

/-- C5 counterexample: a 1v1 queue holding four players still holds two
players — the full required count — after a single formation-tick visit,
because the source drains with `if`, not a loop: the claim that a single
drain pass never leaves a queue with at least the required count is false. -/
theorem C5_counterexample :
    visitQueue "1v1" ["p1", "p2", "p3", "p4"] =
      some (some ["p1", "p2"], ["p3", "p4"]) ∧
      2 ≤ (["p3", "p4"] : List String).length := by
  decide

/-- C5 amended: a single formation-tick visit to a saturated queue removes
exactly one group of the required count from the head; the remainder has
length `original − required`, so the queue is left below the required count
if and only if it held fewer than twice the required count (a longer queue
keeps at least the required count until a later tick). -/
theorem C5_amended_single_group_per_visit (team_size : String) (k : Nat)
    (l : List String) (hk : teamSizeNum team_size = some k)
    (hlen : 2 * k ≤ l.length) :
    visitQueue team_size l = some (some (l.take (2 * k)), l.drop (2 * k)) ∧
      (l.drop (2 * k)).length = l.length - 2 * k ∧
      ((l.drop (2 * k)).length < 2 * k ↔ l.length < 4 * k) := by
  refine ⟨by simp [visitQueue, hk, drainOnce_saturated hlen], ?_, ?_⟩
  · simp
  · simp
    omega

/-- Witness for C5 (amended) on the four-player 1v1 queue. -/
theorem C5_amended_witness :
    visitQueue "1v1" ["p1", "p2", "p3", "p4"] =
      some (some (["p1", "p2", "p3", "p4"].take 2), ["p1", "p2", "p3", "p4"].drop 2) ∧
      ((["p1", "p2", "p3", "p4"] : List String).drop 2).length = 4 - 2 ∧
      (((["p1", "p2", "p3", "p4"] : List String).drop 2).length < 2 ↔ (4 : Nat) < 4) :=
  C5_amended_single_group_per_visit "1v1" 1 ["p1", "p2", "p3", "p4"]
    (by decide) (by decide)

/- ### Queue membership: C4 -/

theorem count_removeFromAll_le (st : QState) (pid q : String) (k : QKey) :
    (((removeFromAll st pid) k).count q) ≤ ((st k).count q) :=
  ((st k).erase_sublist pid).count_le q

theorem not_mem_removeFromAll (st : QState) (pid : String)
    (h : ∀ k, ((st k).count pid) ≤ 1) (k : QKey) :
    pid ∉ (removeFromAll st pid) k := by
  have h1 := h k
  have h2 : (((st k).erase pid).count pid) = ((st k).count pid) - 1 :=
    List.count_erase_self pid (st k)
  have h0 : (((removeFromAll st pid) k).count pid) = 0 := by
    simp only [removeFromAll]
    omega
  exact List.count_eq_zero.mp h0

theorem mem_removeFromAll_of_ne {q pid : String} (h : q ≠ pid)
    (st : QState) (k : QKey) : q ∈ (removeFromAll st pid) k ↔ q ∈ st k :=
  List.mem_erase_of_ne h

theorem QInv_enqueue {st : QState} (h : QInv st) (pid : String) (key : QKey) :
    QInv (enqueue st pid key) := by
  have hnm : ∀ k, pid ∉ (removeFromAll st pid) k :=
    not_mem_removeFromAll st pid (fun k => (h pid).1 k)
  have henq : ∀ k, enqueue st pid key k =
      if k = key then (removeFromAll st pid) k ++ [pid]
      else (removeFromAll st pid) k := by
    intro k; rfl
  intro q
  constructor
  · intro k
    rw [henq k]
    by_cases hk : k = key
    · rw [if_pos hk, List.count_append]
      by_cases hq : q = pid
      · rw [hq]
        have h0 : (((removeFromAll st pid) k).count pid) = 0 :=
          List.count_eq_zero.mpr (hnm k)
        simp [h0]
      · have hle := count_removeFromAll_le st pid q k
        have h1 := (h q).1 k
        have h2 : (([pid] : List String).count q) = 0 := by
          simp [List.count_singleton]
          exact fun hc => hq hc.symm
        omega
    · rw [if_neg hk]
      exact (count_removeFromAll_le st pid q k).trans ((h q).1 k)
  · intro k1 k2 h1 h2
    by_cases hq : q = pid
    · rw [hq] at h1 h2
      have honly : ∀ k, pid ∈ enqueue st pid key k → k = key := by
        intro k hk
        by_cases hkk : k = key
        · exact hkk
        · rw [henq k, if_neg hkk] at hk
          exact absurd hk (hnm k)
      rw [honly k1 h1, honly k2 h2]
    · have hmem : ∀ k, q ∈ enqueue st pid key k → q ∈ st k := by
        intro k hk
        rw [henq k] at hk
        by_cases hkk : k = key
        · rw [if_pos hkk] at hk
          rcases List.mem_append.mp hk with hin | hin
          · exact (mem_removeFromAll_of_ne hq st k).mp hin
          · simp at hin
            exact absurd hin hq
        · rw [if_neg hkk] at hk
          exact (mem_removeFromAll_of_ne hq st k).mp hk
      exact (h q).2 k1 k2 (hmem k1 h1) (hmem k2 h2)

theorem QInv_leave {st : QState} (h : QInv st) (pid : String) :
    QInv (leave st pid) := by
  intro q
  constructor
  · intro k
    exact (count_removeFromAll_le st pid q k).trans ((h q).1 k)
  · intro k1 k2 h1 h2
    exact (h q).2 k1 k2 (List.mem_of_mem_erase h1) (List.mem_of_mem_erase h2)

theorem QInv_empty : QInv (fun _ => []) := by
  intro q
  constructor
  · intro k; simp
  · intro k1 k2 h1 _
    simp at h1

theorem QInv_foldl (ops : List QOp) :
    ∀ st : QState, QInv st → QInv (ops.foldl applyQOp st) := by
  induction ops with
  | nil => intro st h; simpa using h
  | cons op rest ih =>
    intro st h
    rw [List.foldl_cons]
    refine ih _ ?_
    cases op with
    | enq pid key => exact QInv_enqueue h pid key
    | lv pid => exact QInv_leave h pid

theorem QInv_run (ops : List QOp) : QInv (runQOps ops) :=
  QInv_foldl ops _ QInv_empty

/-- C4: after any sequence of enqueue/leave operations from the empty
queues, each player id appears in at most one queue's waiting list (and at
most once in that list); moreover `enqueue` is remove-everywhere followed
by an append at the target queue's tail. -/
theorem C4_at_most_one_queue :
    (∀ (ops : List QOp) (pid : String) (k1 k2 : QKey),
        pid ∈ runQOps ops k1 → pid ∈ runQOps ops k2 → k1 = k2) ∧
    (∀ (ops : List QOp) (pid : String) (k : QKey),
        (((runQOps ops) k).count pid) ≤ 1) ∧
    (∀ (st : QState) (pid : String) (key : QKey),
        enqueue st pid key key = (removeFromAll st pid) key ++ [pid]) := by
  refine ⟨?_, ?_, ?_⟩
  · intro ops pid k1 k2 h1 h2
    exact ((QInv_run ops) pid).2 k1 k2 h1 h2
  · intro ops pid k
    exact ((QInv_run ops) pid).1 k
  · intro st pid key
    simp [enqueue]

/-- Witness for C4 on the concrete sequence `opsW`. -/
theorem C4_witness :
    (("NA-East", "Hoops", "2v2") : QKey) = ("NA-East", "Hoops", "2v2") ∧
    (((runQOps opsW) ("NA-East", "Hoops", "2v2")).count "A") ≤ 1 ∧
    enqueue (fun _ => []) "A" ("EU", "Soccar", "1v1") ("EU", "Soccar", "1v1") =
      (removeFromAll (fun _ => []) "A") ("EU", "Soccar", "1v1") ++ ["A"] :=
  ⟨C4_at_most_one_queue.1 opsW "A" _ _ (by decide) (by decide),
   C4_at_most_one_queue.2.1 opsW "A" _,
   C4_at_most_one_queue.2.2 _ "A" _⟩

/- ### Rank-tier invariant at registration and on update: C3 -/

/-- C3 counterexample: registration stores rating 1000 together with the
hard-coded tier `"Gold I"`, but the tier table maps rating 1000 to
`"Platinum I"` — so immediately after registration the stored tier does not
equal the tier derived from the current rating. -/
theorem C3_counterexample :
    (psA0 "A").map Player.mmr = some 1000 ∧
    (psA0 "A").map Player.rank = some "Gold I" ∧
    get_rank 1000 = "Platinum I" ∧
    ("Gold I" : String) ≠ "Platinum I" := by
  decide

/-- C3 amended: registration creates a player at rating 1000 whose stored
tier is the hard-coded string `"Gold I"`, not recomputed from the tier
table (for rating 1000 the table gives `"Platinum I"`), so the
tier-matches-rating invariant can fail between registration and the first
rating update; every rating update (`update_player_mmr` hitting a
registered player) does recompute the tier, leaving the updated record with
tier exactly `get_rank` of its stored rating. -/
theorem C3_amended_rank_recompute :
    (∀ (ps : String → Option Player) (uid ru pf rg : String),
        ((registerPlayer ps uid ru pf rg) uid).map Player.rank = some "Gold I" ∧
        ((registerPlayer ps uid ru pf rg) uid).map Player.mmr = some 1000) ∧
    (∀ (ps : String → Option Player) (pid : String) (won : Bool) (opp : ℚ)
        (p2 : Player), (update_player_mmr ps pid won opp) pid = some p2 →
        p2.rank = get_rank p2.mmr) := by
  constructor
  · intro ps uid ru pf rg
    constructor <;> simp [registerPlayer]
  · intro ps pid won opp p2 h
    match hp : ps pid with
    | none =>
      rw [update_player_mmr] at h
      rw [hp] at h
      simp at h
      rw [h] at hp
      exact absurd hp (by simp)
    | some p =>
      rw [update_player_mmr] at h
      rw [hp] at h
      simp at h
      subst h
      simp [eloUpdatedPlayer]

/-- Witness for C3 (amended): registering "A" stores rank `"Gold I"`, and
the record produced by "A" winning once against opponent average 1000 is
`pA1` with `pA1.rank = get_rank pA1.mmr`. -/
theorem C3_amended_witness :
    ((registerPlayer emptyPlayers "A" "alice" "Steam" "EU") "A").map Player.rank =
      some "Gold I" ∧
    pA1.rank = get_rank pA1.mmr :=
  ⟨(C3_amended_rank_recompute.1 emptyPlayers "A" "alice" "Steam" "EU").1,
   C3_amended_rank_recompute.2 psA0 "A" true 1000 pA1 (by
     have hp : psA0 "A" = some
         { discord_id := "A", rl_username := "alice", platform := "Steam",
           region := "EU", mmr := 1000, rank := "Gold I",
           stats := { wins := 0, losses := 0, goals := 0, assists := 0, saves := 0 },
           match_history := [] } := rfl
     simp [update_player_mmr, eloUpdatedPlayer, hp, tenPow, truncQ, pymax, pA1,
       get_rank, rankScan, RANKS]
     norm_num)⟩

/- ### Match-id allocation: C9 -/

theorem valDigits_cons (d : Nat) (l : List Nat) :
    valDigits (d :: l) = d + 10 * valDigits l := rfl

theorem valDigits_digitsRevAux :
    ∀ fuel n : Nat, n ≤ fuel → valDigits (digitsRevAux fuel n) = n := by
  intro fuel
  induction fuel with
  | zero =>
    intro n h
    have hn : n = 0 := by omega
    subst hn
    rfl
  | succ f ih =>
    intro n h
    match n with
    | 0 => rfl
    | m + 1 =>
      have hd : (m + 1) / 10 ≤ f := by
        have := Nat.div_lt_self (Nat.succ_pos m) (by omega : 1 < 10)
        omega
      show valDigits (((m + 1) % 10) :: digitsRevAux f ((m + 1) / 10)) = m + 1
      rw [valDigits_cons, ih _ hd]
      omega

theorem digitsRevAux_lt_ten :
    ∀ fuel n d : Nat, d ∈ digitsRevAux fuel n → d < 10 := by
  intro fuel
  induction fuel with
  | zero => intro n d h; simp [digitsRevAux] at h
  | succ f ih =>
    intro n d h
    match n with
    | 0 => simp [digitsRevAux] at h
    | m + 1 =>
      rcases List.mem_cons.mp h with h1 | h1
      · subst h1
        exact Nat.mod_lt _ (by omega)
      · exact ih _ d h1

theorem toNat_digitChar : ∀ d : Nat, d < 10 → (Char.ofNat (48 + d)).toNat = 48 + d := by
  decide

theorem map_digitChar_inj :
    ∀ l1 l2 : List Nat, (∀ d ∈ l1, d < 10) → (∀ d ∈ l2, d < 10) →
      l1.map (fun d => Char.ofNat (48 + d)) = l2.map (fun d => Char.ofNat (48 + d)) →
      l1 = l2 := by
  intro l1
  induction l1 with
  | nil =>
    intro l2 _ _ h
    cases l2 with
    | nil => rfl
    | cons b t2 => simp at h
  | cons a t ih =>
    intro l2 h1 h2 h
    cases l2 with
    | nil => simp at h
    | cons b t2 =>
      simp only [List.map_cons, List.cons.injEq] at h
      obtain ⟨hab, ht⟩ := h
      have ha : a < 10 := h1 a (by simp)
      have hb : b < 10 := h2 b (by simp)
      have htn : (Char.ofNat (48 + a)).toNat = (Char.ofNat (48 + b)).toNat := by
        rw [hab]
      rw [toNat_digitChar a ha, toNat_digitChar b hb] at htn
      have hab2 : a = b := by omega
      subst hab2
      have := ih t2 (fun d hd => h1 d (by simp [hd])) (fun d hd => h2 d (by simp [hd])) ht
      rw [this]

theorem string_mk_inj {l1 l2 : List Char} (h : (⟨l1⟩ : String) = ⟨l2⟩) : l1 = l2 :=
  congrArg String.data h

theorem natRepr_inj : ∀ m n : Nat, natRepr m = natRepr n → m = n := by
  intro m n h
  by_cases hm : m = 0 <;> by_cases hn : n = 0
  · omega
  · exfalso
    rw [natRepr, if_pos hm, natRepr, if_neg hn] at h
    have h0 : ("0" : String) = ⟨['0']⟩ := rfl
    rw [h0] at h
    have hl : ['0'] = (digitsRevAux n n).reverse.map (fun d => Char.ofNat (48 + d)) :=
      string_mk_inj h
    have hz : (['0'] : List Char) = [0].map (fun d => Char.ofNat (48 + d)) := by decide
    rw [hz] at hl
    have hd : ([0] : List Nat) = (digitsRevAux n n).reverse :=
      map_digitChar_inj _ _ (by intro d hd; simp at hd; omega)
        (fun d hd => digitsRevAux_lt_ten n n d (List.mem_reverse.mp hd)) hl
    have : digitsRevAux n n = [0] := by
      have := congrArg List.reverse hd
      simpa using this.symm
    have hv := valDigits_digitsRevAux n n (le_refl n)
    rw [this] at hv
    simp [valDigits] at hv
    omega
  · exfalso
    rw [natRepr, if_neg hm, natRepr, if_pos hn] at h
    have h0 : ("0" : String) = ⟨['0']⟩ := rfl
    rw [h0] at h
    have hl : (digitsRevAux m m).reverse.map (fun d => Char.ofNat (48 + d)) = ['0'] :=
      string_mk_inj h
    have hz : (['0'] : List Char) = [0].map (fun d => Char.ofNat (48 + d)) := by decide
    rw [hz] at hl
    have hd : (digitsRevAux m m).reverse = ([0] : List Nat) :=
      map_digitChar_inj _ _
        (fun d hd => digitsRevAux_lt_ten m m d (List.mem_reverse.mp hd))
        (by intro d hd; simp at hd; omega) hl
    have : digitsRevAux m m = [0] := by
      have := congrArg List.reverse hd
      simpa using this
    have hv := valDigits_digitsRevAux m m (le_refl m)
    rw [this] at hv
    simp [valDigits] at hv
    omega
  · rw [natRepr, if_neg hm, natRepr, if_neg hn] at h
    have hl := string_mk_inj h
    have hd := map_digitChar_inj _ _
      (fun d hd => digitsRevAux_lt_ten m m d (List.mem_reverse.mp hd))
      (fun d hd => digitsRevAux_lt_ten n n d (List.mem_reverse.mp hd)) hl
    have hrev : digitsRevAux m m = digitsRevAux n n := by
      have := congrArg List.reverse hd
      simpa using this
    have hv1 := valDigits_digitsRevAux m m (le_refl m)
    have hv2 := valDigits_digitsRevAux n n (le_refl n)
    rw [hrev] at hv1
    omega

theorem string_append_left_cancel {s t u : String} (h : s ++ t = s ++ u) : t = u := by
  obtain ⟨a⟩ := s
  obtain ⟨b⟩ := t
  obtain ⟨c⟩ := u
  have hd : a ++ b = a ++ c := congrArg String.data h
  have hbc : b = c := List.append_cancel_left hd
  rw [hbc]

theorem mkMatchId_inj {m n : Nat} (h : mkMatchId m = mkMatchId n) : m = n :=
  natRepr_inj m n (string_append_left_cancel h)

/-- C9 counterexample: two distinct matches (different participant lists)
created from the same random draw 11111 receive the same id, and the second
creation overwrites the first match's record — so match-id allocation is
not unique over all choices of the random source. -/
theorem C9_counterexample :
    (msOne (mkMatchId 11111)).map GameMatch.players = some ["A", "B"] ∧
    (msTwo (mkMatchId 11111)).map GameMatch.players = some ["C", "D"] ∧
    (["A", "B"] : List String) ≠ ["C", "D"] := by
  decide

/-- C9 amended: match ids are `"match_" ++ <decimal of the random draw>`,
so two created matches have distinct ids whenever their random draws are
distinct — uniqueness holds only up to the 5-digit random draw repeating —
and creation stores the new record under its own id, leaving the record at
every other id unchanged (a repeated draw therefore overwrites the match
stored under that id). -/
theorem C9_amended_id_allocation :
    (∀ m n : Nat, m ≠ n → mkMatchId m ≠ mkMatchId n) ∧
    (∀ (ms : String → Option GameMatch) (region mode ts : String)
        (sel : List String) (draw : Nat) (mp rn rp now k : String),
        k ≠ mkMatchId draw →
        createMatch ms region mode ts sel draw mp rn rp now k = ms k) := by
  constructor
  · intro m n hmn hc
    exact hmn (mkMatchId_inj hc)
  · intro ms region mode ts sel draw mp rn rp now k hk
    simp [createMatch, if_neg hk]

/-- Witness for C9 (amended): draws 11111 and 22222 give distinct ids, and
the second creation in `msTwo` leaves the record at key "other" as it was
in `msOne`. -/
theorem C9_amended_witness :
    mkMatchId 11111 ≠ mkMatchId 22222 ∧
    msTwo "other" = msOne "other" :=
  ⟨C9_amended_id_allocation.1 11111 22222 (by decide),
   C9_amended_id_allocation.2 msOne "EU" "Soccar" "1v1" ["C", "D"] 11111
     "Mannfield" "OS2222" "222" "t1" "other" (by decide)⟩

/- ### Structure of process_result: shared lemmas -/

theorem update_player_mmr_ne {ps : String → Option Player} {pid k : String}
    {won : Bool} {opp : ℚ} (h : k ≠ pid) :
    update_player_mmr ps pid won opp k = ps k := by
  cases hp : ps pid with
  | none => rw [update_player_mmr, hp]
  | some p =>
    rw [update_player_mmr, hp]
    simp [if_neg h]

theorem update_player_mmr_at {ps : String → Option Player} {pid : String}
    {won : Bool} {opp : ℚ} {p : Player} (h : ps pid = some p) :
    update_player_mmr ps pid won opp pid = some (eloUpdatedPlayer p won opp) := by
  rw [update_player_mmr, h]
  simp

theorem eloUpdatedPlayer_frame (p : Player) (won : Bool) (opp : ℚ) :
    frameEq p (eloUpdatedPlayer p won opp) ∧
      (eloUpdatedPlayer p won opp).match_history = p.match_history := by
  cases won <;> simp [eloUpdatedPlayer, frameEq]

theorem appendHistory_ne {ps : String → Option Player} {pid k : String}
    {e : HistEntry} (h : k ≠ pid) : appendHistory ps pid e k = ps k := by
  cases hp : ps pid with
  | none => rw [appendHistory, hp]
  | some p =>
    rw [appendHistory, hp]
    simp [if_neg h]

theorem appendHistory_at {ps : String → Option Player} {pid : String}
    {e : HistEntry} {p : Player} (h : ps pid = some p) :
    appendHistory ps pid e pid =
      some { p with match_history := p.match_history ++ [e] } := by
  rw [appendHistory, h]
  simp

theorem frameEq_refl (p : Player) : frameEq p p := by
  simp [frameEq]

theorem frameEq_trans {p q r : Player} (h1 : frameEq p q) (h2 : frameEq q r) :
    frameEq p r := by
  obtain ⟨a1, b1, c1, d1, e1, f1, g1⟩ := h1
  obtain ⟨a2, b2, c2, d2, e2, f2, g2⟩ := h2
  exact ⟨a2.trans a1, b2.trans b1, c2.trans c1, d2.trans d1,
    e2.trans e1, f2.trans f1, g2.trans g1⟩

theorem appendHistory_frame (p : Player) (e : HistEntry) :
    frameEq p { p with match_history := p.match_history ++ [e] } := by
  simp [frameEq]

theorem reportStep_ne {m : GameMatch} {w : Bool} {avg : ℚ} {now : String}
    {ps : String → Option Player} {pid k : String} (h : k ≠ pid) :
    reportStep m w avg now ps pid k = ps k := by
  cases hp : ps pid with
  | none => rw [reportStep, hp]
  | some p =>
    rw [reportStep, hp]
    show appendHistory (update_player_mmr ps pid w avg) pid (histEntryFor m w now) k = ps k
    rw [appendHistory_ne h, update_player_mmr_ne h]

theorem reportStep_none {m : GameMatch} {w : Bool} {avg : ℚ} {now : String}
    {ps : String → Option Player} {pid k : String} (h : ps k = none) :
    reportStep m w avg now ps pid k = none := by
  by_cases hk : k = pid
  · rw [hk] at h ⊢
    rw [reportStep, h]
    exact h
  · rw [reportStep_ne hk]
    exact h

theorem reportStep_frame {m : GameMatch} {w : Bool} {avg : ℚ} {now : String}
    {ps : String → Option Player} {pid k : String} {p : Player}
    (h : ps k = some p) :
    ∃ q, reportStep m w avg now ps pid k = some q ∧ frameEq p q := by
  by_cases hk : k = pid
  · rw [hk] at h ⊢
    rw [reportStep, h]
    show ∃ q, appendHistory (update_player_mmr ps pid w avg) pid
      (histEntryFor m w now) pid = some q ∧ frameEq p q
    rw [appendHistory_at (update_player_mmr_at h)]
    refine ⟨_, rfl, ?_⟩
    exact frameEq_trans (eloUpdatedPlayer_frame p w avg).1 (appendHistory_frame _ _)
  · rw [reportStep_ne hk]
    exact ⟨p, h, frameEq_refl p⟩

theorem foldl_reportStep_ne (m : GameMatch) (w : Bool) (avg : ℚ) (now : String)
    (team : List String) :
    ∀ (ps : String → Option Player) (k : String), k ∉ team →
      (team.foldl (fun ps pid => reportStep m w avg now ps pid) ps) k = ps k := by
  induction team with
  | nil => intro ps k _; rfl
  | cons a t ih =>
    intro ps k hk
    rw [List.foldl_cons]
    have hka : k ≠ a := fun hc => hk (by simp [hc])
    rw [ih _ k (fun hc => hk (by simp [hc]))]
    exact reportStep_ne hka

theorem foldl_reportStep_none (m : GameMatch) (w : Bool) (avg : ℚ) (now : String)
    (team : List String) :
    ∀ (ps : String → Option Player) (k : String), ps k = none →
      (team.foldl (fun ps pid => reportStep m w avg now ps pid) ps) k = none := by
  induction team with
  | nil => intro ps k h; exact h
  | cons a t ih =>
    intro ps k h
    rw [List.foldl_cons]
    exact ih _ k (reportStep_none h)

theorem foldl_reportStep_frame (m : GameMatch) (w : Bool) (avg : ℚ) (now : String)
    (team : List String) :
    ∀ (ps : String → Option Player) (k : String) (p : Player), ps k = some p →
      ∃ q, (team.foldl (fun ps pid => reportStep m w avg now ps pid) ps) k = some q ∧
        frameEq p q := by
  induction team with
  | nil => intro ps k p h; exact ⟨p, h, frameEq_refl p⟩
  | cons a t ih =>
    intro ps k p h
    rw [List.foldl_cons]
    obtain ⟨q, hq, hfq⟩ := @reportStep_frame m w avg now ps a k p h
    obtain ⟨r, hr, hfr⟩ := ih _ k q hq
    exact ⟨r, hr, frameEq_trans hfq hfr⟩

theorem process_result_some_players {st : SysState} {m : GameMatch}
    {winner now : String} {st2 : SysState}
    (h : process_result st m winner now = some st2) :
    ∃ ts, teamSizeNum m.team_size = some ts ∧
      st2.players = (m.players.drop ts).foldl
        (fun ps pid => reportStep m (winner = "Blue")
          (teamAvg st.players (m.players.take ts)) now ps pid)
        ((m.players.take ts).foldl
          (fun ps pid => reportStep m (winner = "Orange")
            (teamAvg st.players (m.players.drop ts)) now ps pid)
          st.players) := by
  cases hts : teamSizeNum m.team_size with
  | none =>
    rw [process_result, hts] at h
    cases h
  | some ts =>
    simp only [process_result, hts] at h
    refine ⟨ts, rfl, ?_⟩
    by_cases ho : (m.players.take ts).length = 0
    · rw [if_pos ho] at h; cases h
    · rw [if_neg ho] at h
      by_cases hb : (m.players.drop ts).length = 0
      · rw [if_pos hb] at h; cases h
      · rw [if_neg hb] at h
        cases hm : st.matchesMap m.match_id with
        | none => rw [hm] at h; cases h
        | some mm =>
          rw [hm] at h
          injection h with h2
          rw [← h2]

/- ### C7: team averages and unresolvable participants -/

/-- C7 counterexample: for the Orange team ["A", "X"] with "A" registered
at rating 1000 and "X" unregistered, `process_result`'s average (`teamAvg`)
is 1000 / 2 = 500, while the average over only the resolvable participants
is 1000 — the divisor is the full team length, not the resolvable count, so
the claim that unresolvable participants are ignored in the average is
false. -/
theorem C7_counterexample :
    teamAvg psACD ["A", "X"] = 500 ∧
    specResolvableAvg psACD ["A", "X"] = 1000 ∧
    (500 : ℚ) ≠ 1000 := by
  simp [teamAvg, specResolvableAvg, resolvableSum, psACD, psA0,
    registerPlayer, emptyPlayers]
  norm_num

theorem teamAvg_mul_length (ps : String → Option Player) (team : List String) :
    teamAvg ps team * (team.length : ℚ) = resolvableSum ps team := by
  match team with
  | [] => simp [teamAvg, resolvableSum]
  | a :: t =>
    rw [teamAvg]
    have hne : ((a :: t).length : ℚ) ≠ 0 :=
      Nat.cast_ne_zero.mpr (by simp)
    rw [div_mul_cancel₀ _ hne]

/-- C7 amended: the team average used as the opponent reference is the sum
of the resolvable participants' ratings divided by the full team length
(unresolvable entries contribute 0 to the sum but still count in the
divisor); and when a team has no resolvable members its side is skipped
rather than failing — for any report on a match with a valid team split
and a stored match record, processing succeeds (no division-by-zero,
the team lengths being positive), and every unregistered id, in particular
every member of a fully-unresolvable team, is left untouched. -/
theorem C7_amended_average_denominator :
    (∀ (ps : String → Option Player) (team : List String),
        teamAvg ps team * (team.length : ℚ) = resolvableSum ps team) ∧
    (∀ (st : SysState) (m : GameMatch) (winner now : String) (ts : Nat)
        (mm : GameMatch) (pid : String),
        teamSizeNum m.team_size = some ts → 0 < ts → ts < m.players.length →
        st.matchesMap m.match_id = some mm →
        (process_result st m winner now).isSome = true ∧
        (st.players pid = none →
          (process_result st m winner now).bind (fun st2 => st2.players pid) = none)) := by
  constructor
  · exact teamAvg_mul_length
  · intro st m winner now ts mm pid hts hpos hlt hm
    have ho : (m.players.take ts).length ≠ 0 := by
      rw [List.length_take]
      omega
    have hb : (m.players.drop ts).length ≠ 0 := by
      rw [List.length_drop]
      omega
    have hsome : process_result st m winner now = some
        { players := (m.players.drop ts).foldl
            (fun ps pid => reportStep m (winner = "Blue")
              (teamAvg st.players (m.players.take ts)) now ps pid)
            ((m.players.take ts).foldl
              (fun ps pid => reportStep m (winner = "Orange")
                (teamAvg st.players (m.players.drop ts)) now ps pid)
              st.players),
          matchesMap := fun k => if k = m.match_id then
            some { mm with status := "Completed" } else st.matchesMap k } := by
      simp only [process_result, hts, if_neg ho, if_neg hb, hm]
    constructor
    · rw [hsome]
      rfl
    · intro hnone
      rw [hsome]
      exact foldl_reportStep_none _ _ _ _ _ _ _
        (foldl_reportStep_none _ _ _ _ _ _ _ hnone)

/-- Witness for C7 (amended) on the 2v2 scenario `stC7`/`matchC7` with the
unregistered Orange member "X". -/
theorem C7_amended_witness :
    teamAvg psACD ["A", "X"] * ((["A", "X"] : List String).length : ℚ) =
      resolvableSum psACD ["A", "X"] ∧
    (process_result stC7 matchC7 "Orange" "t1").isSome = true ∧
    (process_result stC7 matchC7 "Orange" "t1").bind
      (fun st2 => st2.players "X") = none := by
  have h2 := C7_amended_average_denominator.2 stC7 matchC7 "Orange" "t1" 2 matchC7
    "X" rfl (by decide) (by decide) rfl
  exact ⟨C7_amended_average_denominator.1 psACD ["A", "X"], h2.1, h2.2 rfl⟩

/- ### C10: frame effect of result processing -/

/-- C10: reporting a result modifies only the rating, rank, win/loss
counters and match-history of the match's resolvable participants — for
every state and report, any id outside the participant list keeps its exact
player record, and every id (participant or not) keeps its identity/profile
fields and its goals, assists and saves counters (`frameProj`). -/
theorem C10_frame_effect (st : SysState) (m : GameMatch) (winner now : String)
    (pid : String) :
    (pid ∉ m.players → (processedState st m winner now).players pid = st.players pid) ∧
    ((processedState st m winner now).players pid).map frameProj =
      (st.players pid).map frameProj := by
  cases h : process_result st m winner now with
  | none =>
    rw [processedState, h]
    exact ⟨fun _ => rfl, rfl⟩
  | some st2 =>
    rw [processedState, h]
    obtain ⟨ts, hts, hps⟩ := process_result_some_players h
    constructor
    · intro hpid
      show st2.players pid = st.players pid
      rw [hps]
      rw [foldl_reportStep_ne _ _ _ _ _ _ _
        (fun hc => hpid (List.drop_subset ts m.players hc))]
      exact foldl_reportStep_ne _ _ _ _ _ _ _
        (fun hc => hpid (List.take_subset ts m.players hc))
    · show (st2.players pid).map frameProj = (st.players pid).map frameProj
      cases hsp : st.players pid with
      | none =>
        rw [hps]
        rw [foldl_reportStep_none _ _ _ _ _ _ _
          (foldl_reportStep_none _ _ _ _ _ _ _ hsp)]
      | some p =>
        rw [hps]
        obtain ⟨q, hq, hfq⟩ := foldl_reportStep_frame _ _ _ _ _ _ _ p hsp
        obtain ⟨r, hr, hfr⟩ := foldl_reportStep_frame _ _ _ _ _ _ _ q hq
        rw [hr]
        obtain ⟨a2, b2, c2, d2, e2, f2, g2⟩ := frameEq_trans hfq hfr
        simp [frameProj, a2, b2, c2, d2, e2, f2, g2]

/-- Witness for C10: in the reference scenario, the non-participant "Z"
keeps its (absent) record, and participant "A" keeps its profile fields and
goals/assists/saves counters. -/
theorem C10_witness :
    ((processedState stAB matchAB "Orange" "t1").players "Z" = stAB.players "Z") ∧
    ((processedState stAB matchAB "Orange" "t1").players "A").map frameProj =
      (stAB.players "A").map frameProj :=
  ⟨(C10_frame_effect stAB matchAB "Orange" "t1" "Z").1 (by decide),
   (C10_frame_effect stAB matchAB "Orange" "t1" "A").2⟩

/- ### C1: no AlreadyCompleted guard — double reports re-apply updates -/

/-- C1 (evidence of the code bug): in the reference scenario the first
report marks the match Completed, yet a second report on the very same
match succeeds instead of failing with AlreadyCompleted, and re-applies the
per-player updates: "A" ends with 2 recorded wins and 2 history entries and
"B" with 2 recorded losses and 2 history entries for the single match —
the source's `process_result` never consults the match status. -/
theorem C1_double_report_not_rejected :
    ((process_result stAB matchAB "Orange" "t1").map (fun st1 =>
        (st1.matchesMap (mkMatchId 12345)).map GameMatch.status) =
      some (some "Completed")) ∧
    (((process_result stAB matchAB "Orange" "t1").bind (fun st1 =>
        process_result st1 matchAB "Orange" "t2")).map (fun st2 =>
        ((st2.matchesMap (mkMatchId 12345)).map GameMatch.status,
         (st2.players "A").map (fun p => (p.stats.wins, p.match_history.length)),
         (st2.players "B").map (fun p => (p.stats.losses, p.match_history.length)))) =
      some (some "Completed", some (2, 2), some (2, 2))) := by
  have hts : teamSizeNum "1v1" = some 1 := rfl
  constructor
  · simp [process_result, stAB, psAB, msAB, matchAB, hts, teamAvg, resolvableSum,
      reportStep, update_player_mmr, eloUpdatedPlayer, appendHistory, histEntryFor,
      registerPlayer, emptyPlayers, emptyMatches, createMatch, mkMatchId,
      tenPow, truncQ, pymax, natRepr, digitsRevAux]
  · simp [process_result, stAB, psAB, msAB, matchAB, hts, teamAvg, resolvableSum,
      reportStep, update_player_mmr, eloUpdatedPlayer, appendHistory, histEntryFor,
      registerPlayer, emptyPlayers, emptyMatches, createMatch, mkMatchId,
      tenPow, truncQ, pymax, natRepr, digitsRevAux]

end Octane
